import Mathlib

/-!
Shallow embedding of `src/tube.py` (class `TubeSolver`), a heuristic solver
for the liquid-sorting tube puzzle, together with proofs of the specified
properties.

Modelling conventions:
* Python lists of ints become `List Int`; a tube is stored bottom-to-top
  exactly as in the source (index 0 = bottom, `[-1]` = top = `getLast?`).
* The `TubeSolver` object becomes a structure; methods become functions
  `TubeSolver → ...` returning the updated structure where the Python
  method mutates `self`.
* Python indexing `self.tubes[i]` is modelled with `List.getD i []`;
  theorems that depend on index validity carry explicit bounds hypotheses
  (Python would raise `IndexError` outside them).
* `random.choice` in `solve` is modelled by an oracle `rand : Nat → Nat`
  supplying the chosen index at each iteration, and the unbounded `while`
  loop by explicit fuel; the claims proved about `solve` hold for every
  oracle and every amount of fuel.
-/

namespace TubeSpec

/-- State of a `TubeSolver` object: the fields set in `__init__`. -/
structure TubeSolver where
  original_tubes : List (List Int)
  tubes : List (List Int)
  tube_capacity : Nat
  moves : List (Nat × Nat)
  visited_states : List String
  total_colors : Nat
  empty_tubes_count : Nat
deriving Repr, DecidableEq

/-- Embedding of `_count_total_colors`: the number of distinct colors in the
original configuration (`len(set of all units)`). -/
def countTotalColors (tubes : List (List Int)) : Nat :=
  tubes.flatten.dedup.length

/-- Embedding of `_count_empty_tubes`: how many tubes of the original
configuration are empty. -/
def countEmptyTubes (tubes : List (List Int)) : Nat :=
  (tubes.filter (fun t => t.length == 0)).length

/-- Embedding of `TubeSolver.__init__`: copies the given tubes into both
`original_tubes` and `tubes`, fixes the capacity at 4, clears the move
trace and visited set, and derives `total_colors` / `empty_tubes_count`. -/
def mkSolver (tubes : List (List Int)) : TubeSolver where
  original_tubes := tubes
  tubes := tubes
  tube_capacity := 4
  moves := []
  visited_states := []
  total_colors := countTotalColors tubes
  empty_tubes_count := countEmptyTubes tubes

namespace TubeSolver

/-- Embedding of `can_pour(from_index, to_index)`. -/
def can_pour (s : TubeSolver) (from_index to_index : Nat) : Bool :=
  if from_index == to_index then false
  else if (s.tubes.getD from_index []).length == 0 then false
  else if s.tube_capacity ≤ (s.tubes.getD to_index []).length then false
  else
    match (s.tubes.getD to_index []).getLast? with
    | none => true
    | some to_color =>
      match (s.tubes.getD from_index []).getLast? with
      | some from_color => to_color == from_color
      | none => false

/-- The `count` loop of `pour`: length of the maximal run of units sharing
the top unit's color, scanning downward from the top of the tube. -/
def topRunLen (t : List Int) : Nat :=
  match t.reverse with
  | [] => 0
  | c :: rest => 1 + (rest.takeWhile (fun x => x == c)).length

/-- Embedding of `pour(from_index, to_index)`: returns the boolean result of
the Python method together with the updated solver state. -/
def pour (s : TubeSolver) (from_index to_index : Nat) : Bool × TubeSolver :=
  if s.can_pour from_index to_index then
    let ft := s.tubes.getD from_index []
    let tt := s.tubes.getD to_index []
    let count := topRunLen ft
    let space := s.tube_capacity - tt.length
    let pour_count := min count space
    let poured := ft.drop (ft.length - pour_count)
    let newFrom := ft.take (ft.length - pour_count)
    let newTo := tt ++ poured
    (true,
      { s with
        tubes := (s.tubes.set from_index newFrom).set to_index newTo
        moves := s.moves ++ [(from_index, to_index)] })
  else (false, s)

/-- Serialization of one tube inside `get_state_hash`:
`','.join(map(str, tube))`. -/
def serializeTube (t : List Int) : String :=
  String.intercalate "," (t.map toString)

/-- Embedding of `get_state_hash`: the per-tube serializations, sorted
lexicographically, joined with a pipe character. -/
def get_state_hash (s : TubeSolver) : String :=
  String.intercalate "|"
    (List.insertionSort (fun a b => a ≤ b) (s.tubes.map serializeTube))

/-- The `for tube in self.tubes` loop of `is_solved`, threading the
`completed` and `empty` counters; `none` models the early `return False`. -/
def isSolvedLoop (cap : Nat) : List (List Int) → Nat → Nat → Option (Nat × Nat)
  | [], completed, empty => some (completed, empty)
  | [] :: rest, completed, empty => isSolvedLoop cap rest completed (empty + 1)
  | (c :: tl) :: rest, completed, empty =>
    if (c :: tl).length ≠ cap then none
    else if tl.all (fun x => x == c) then isSolvedLoop cap rest (completed + 1) empty
    else none

/-- Embedding of `is_solved`. -/
def is_solved (s : TubeSolver) : Bool :=
  match isSolvedLoop s.tube_capacity s.tubes 0 0 with
  | none => false
  | some (completed, empty) =>
    completed == s.total_colors && empty == s.empty_tubes_count

/-- Embedding of `get_empty_tubes`: indices of empty tubes. -/
def get_empty_tubes (s : TubeSolver) : List Nat :=
  (List.range s.tubes.length).filter (fun i => (s.tubes.getD i []).length == 0)

/-- Embedding of `get_tubes_with_space`: indices of tubes below capacity. -/
def get_tubes_with_space (s : TubeSolver) : List Nat :=
  (List.range s.tubes.length).filter
    (fun i => (s.tubes.getD i []).length < s.tube_capacity)

end TubeSolver

open TubeSolver

/-- One entry of the `positions` list built by `analyze_colors`. -/
structure ColorPos where
  tube_index : Nat
  position : Nat
  depth : Nat
  is_top : Bool
deriving Repr, DecidableEq

/-- The nested position-collecting loops of `analyze_colors`: every
occurrence of `color`, with its tube index, position, depth and top flag. -/
def positionsFor (tubes : List (List Int)) (color : Int) : List ColorPos :=
  tubes.enum.flatMap (fun p =>
    p.2.enum.filterMap (fun q =>
      if q.2 == color then
        some ⟨p.1, q.1, p.2.length - q.1 - 1, q.1 == p.2.length - 1⟩
      else none))

/-- The value stored for one color in the `color_analysis` dict. -/
structure ColorData where
  total_count : Nat
  positions : List ColorPos
  is_collectible : Bool
  max_depth : Nat
deriving Repr, DecidableEq

/-- The `all_colors` set of `analyze_colors`, modelled as the list of
distinct colors in order of first appearance (Python's set iteration order
is unspecified; every property proved below is independent of this order). -/
def allColors (tubes : List (List Int)) : List Int :=
  tubes.flatten.dedup

/-- The `positions.sort(key=depth, reverse=True)` step of `analyze_colors`. -/
def sortByDepthDesc (ps : List ColorPos) : List ColorPos :=
  List.insertionSort (fun a b => b.depth ≤ a.depth) ps

/-- Embedding of `analyze_colors`, as the association list underlying the
returned dict (keys in iteration order of `all_colors`). -/
def analyze_colors (s : TubeSolver) : List (Int × ColorData) :=
  (allColors s.tubes).filterMap (fun color =>
    let positions := positionsFor s.tubes color
    if positions.length == s.tube_capacity then
      let sorted := sortByDepthDesc positions
      some (color,
        { total_count := positions.length
          positions := sorted
          is_collectible := sorted.any (fun p => p.is_top)
          max_depth := (sorted.map (fun p => p.depth)).foldr max 0 })
    else none)

/-- The scoring expression of `find_target_color` for one analysis entry. -/
def colorScore (data : ColorData) : Int :=
  let top_count := (data.positions.filter (fun p => p.is_top)).length
  data.max_depth * 10 + (if 1 < top_count then top_count * 5 else 0)

/-- The `for color, data in analysis.items()` loop of `find_target_color`,
threading `best_color` and `best_score`. -/
def ftcLoop : List (Int × ColorData) → Option Int → Int → Option Int
  | [], best, _ => best
  | (color, data) :: rest, best, best_score =>
    if data.is_collectible then
      let score := colorScore data
      if best_score < score then ftcLoop rest (some color) score
      else ftcLoop rest best best_score
    else ftcLoop rest best best_score

/-- Embedding of `find_target_color`. -/
def TubeSolver.find_target_color (s : TubeSolver) : Option Int :=
  ftcLoop (analyze_colors s) none (-1)

/-- A candidate move emitted by `find_moves_for_color` (the `description`
field of the source, pure presentation, is omitted). -/
structure CandidateMove where
  from_idx : Nat
  to_idx : Nat
  mtype : String
  priority : Nat
deriving Repr, DecidableEq

/-- One entry of the `target_positions` list of `find_moves_for_color`,
which additionally records the units above the occurrence. -/
structure TargetPos where
  tube_index : Nat
  position : Nat
  depth : Nat
  is_top : Bool
  blocking_colors : List Int
deriving Repr, DecidableEq

/-- The position-collecting loop of `find_moves_for_color`. -/
def targetPositions (tubes : List (List Int)) (color : Int) : List TargetPos :=
  tubes.enum.flatMap (fun p =>
    p.2.enum.filterMap (fun q =>
      if q.2 == color then
        some ⟨p.1, q.1, p.2.length - q.1 - 1, q.1 == p.2.length - 1,
              p.2.drop (q.1 + 1)⟩
      else none))

/-- The collect / free / free_to_empty candidates of `find_moves_for_color`:
one batch per target position, positions visited deepest first. -/
def collectFreeMoves (s : TubeSolver) (target_color : Int) :
    List CandidateMove :=
  (List.insertionSort (fun a b => b.depth ≤ a.depth)
      (targetPositions s.tubes target_color)).flatMap (fun pos =>
    if pos.is_top then
      s.get_tubes_with_space.filterMap (fun to_idx =>
        if pos.tube_index ≠ to_idx ∧ s.can_pour pos.tube_index to_idx then
          some ⟨pos.tube_index, to_idx, "collect", 80⟩
        else none)
    else if pos.blocking_colors ≠ [] then
      s.get_tubes_with_space.filterMap (fun to_idx =>
        if pos.tube_index ≠ to_idx ∧ s.can_pour pos.tube_index to_idx then
          some ⟨pos.tube_index, to_idx, "free", 90⟩
        else none)
      ++ s.get_empty_tubes.filterMap (fun empty_tube =>
        if pos.tube_index ≠ empty_tube ∧ s.can_pour pos.tube_index empty_tube then
          some ⟨pos.tube_index, empty_tube, "free_to_empty", 95⟩
        else none)
    else [])

/-- The `tubes_with_target_top` list of `find_moves_for_color`. -/
def tubesWithTargetTop (s : TubeSolver) (target_color : Int) : List Nat :=
  (List.range s.tubes.length).filter
    (fun i => !(s.tubes.getD i []).isEmpty &&
      ((s.tubes.getD i []).getLast? == some target_color))

/-- The merge candidates of `find_moves_for_color`: one per ordered pair of
distinct tubes whose tops both show the target color, when there are at
least two such tubes. -/
def mergeMovesFor (s : TubeSolver) (target_color : Int) :
    List CandidateMove :=
  if 1 < (tubesWithTargetTop s target_color).length then
    (tubesWithTargetTop s target_color).enum.flatMap (fun p =>
      ((tubesWithTargetTop s target_color).drop (p.1 + 1)).filterMap
        (fun to_idx =>
          if s.can_pour p.2 to_idx then some ⟨p.2, to_idx, "merge", 70⟩
          else none))
  else []

/-- Embedding of `find_moves_for_color`: collect/free/free_to_empty
candidates per target position (deepest first), then merge candidates,
finally sorted by descending priority. -/
def TubeSolver.find_moves_for_color (s : TubeSolver) (target_color : Int) :
    List CandidateMove :=
  List.insertionSort (fun a b => b.priority ≤ a.priority)
    (collectFreeMoves s target_color ++ mergeMovesFor s target_color)

/-- First pass of `find_backup_move`: find a tube exactly one unit short
of full whose present units all share one color, and another tube whose
top matches and can legally pour in. -/
def backupFirstPass (s : TubeSolver) : Option (Nat × Nat) :=
  s.tubes.enum.findSome? (fun p =>
    if p.2.length == s.tube_capacity - 1 then
      match p.2.head? with
      | none => none
      | some color =>
        if p.2.all (fun c => c == color) then
          (List.range s.tubes.length).findSome? (fun from_idx =>
            if from_idx ≠ p.1 ∧ s.can_pour from_idx p.1 = true ∧
                (s.tubes.getD from_idx []) ≠ [] ∧
                (s.tubes.getD from_idx []).getLast? = some color then
              some (from_idx, p.1)
            else none)
        else none
    else none)

/-- Second pass of `find_backup_move`: first legal pour in an exhaustive
index-order scan of all (from,to) pairs. -/
def backupSecondPass (s : TubeSolver) : Option (Nat × Nat) :=
  (List.range s.tubes.length).findSome? (fun from_idx =>
    (List.range s.tubes.length).findSome? (fun to_idx =>
      if s.can_pour from_idx to_idx then some (from_idx, to_idx) else none))

/-- Embedding of `find_backup_move`: first pass prefers pouring a matching
top into an almost-complete single-color tube; second pass (only if the
first finds nothing) scans all index pairs for any legal pour. -/
def TubeSolver.find_backup_move (s : TubeSolver) : Option (Nat × Nat) :=
  match backupFirstPass s with
  | some m => some m
  | none => backupSecondPass s

/-- The `all_moves` list built in the cycle-escape branch of `solve`: every
legal (from,to) pair, in index order. -/
def legalMoves (s : TubeSolver) : List (Nat × Nat) :=
  (List.range s.tubes.length).flatMap (fun from_idx =>
    (List.range s.tubes.length).filterMap (fun to_idx =>
      if s.can_pour from_idx to_idx then some (from_idx, to_idx) else none))

/-- One iteration of the `while` loop of `solve`: the updated solver state
together with `true` to continue looping or `false` for `break`; `r` is
the oracle value standing in for `random.choice`. -/
def solveStep (s : TubeSolver) (r : Nat) : TubeSolver × Bool :=
  let state_hash := s.get_state_hash
  if state_hash ∈ s.visited_states then
    match legalMoves s with
    | [] => (s, false)
    | _ :: _ =>
      let m := (legalMoves s).getD (r % (legalMoves s).length) (0, 0)
      ((s.pour m.1 m.2).2, true)
  else
    let s' := { s with visited_states := state_hash :: s.visited_states }
    match s'.find_target_color with
    | some tc =>
      if tc ≠ 0 then
        match s'.find_moves_for_color tc with
        | best :: _ => ((s'.pour best.from_idx best.to_idx).2, true)
        | [] =>
          match s'.find_backup_move with
          | some m => ((s'.pour m.1 m.2).2, true)
          | none => (s', false)
      else
        match s'.find_backup_move with
        | some m => ((s'.pour m.1 m.2).2, true)
        | none => (s', false)
    | none =>
      match s'.find_backup_move with
      | some m => ((s'.pour m.1 m.2).2, true)
      | none => (s', false)

/-- The `while not self.is_solved()` loop of `solve`, with explicit fuel
(the Python loop is unbounded) and a choice oracle `rand` indexed by the
remaining fuel. -/
def solveLoop (rand : Nat → Nat) : Nat → TubeSolver → TubeSolver
  | 0, s => s
  | fuel + 1, s =>
    if s.is_solved then s
    else
      match solveStep s (rand fuel) with
      | (s', false) => s'
      | (s', true) => solveLoop rand fuel s'

/-- The three reset assignments at the top of `solve`: restore the tubes
from the original configuration, clear the move trace, clear the visited
set. -/
def TubeSolver.resetState (s : TubeSolver) : TubeSolver :=
  { s with tubes := s.original_tubes, moves := [], visited_states := [] }

/-- Embedding of `solve`: reset to the original configuration, run the
loop, and return `is_solved()` together with the final solver state. -/
def TubeSolver.solve (s : TubeSolver) (rand : Nat → Nat) (fuel : Nat) :
    Bool × TubeSolver :=
  let s1 := solveLoop rand fuel s.resetState
  (s1.is_solved, s1)

/-! ## Helper lemmas -/

theorem can_pour_facts {s : TubeSolver} {i j : Nat} (h : s.can_pour i j = true) :
    i ≠ j ∧ s.tubes.getD i [] ≠ [] ∧
    (s.tubes.getD j []).length < s.tube_capacity := by
  unfold TubeSolver.can_pour at h
  split_ifs at h with h1 h2 h3
  refine ⟨by simpa using h1, ?_, by omega⟩
  intro hnil
  exact h2 (by simpa [List.getD_eq_getElem?_getD] using hnil)

theorem can_pour_src_lt {s : TubeSolver} {i j : Nat} (h : s.can_pour i j = true) :
    i < s.tubes.length := by
  by_contra hge
  have : s.tubes.getD i [] = [] := List.getD_eq_default _ _ (by omega)
  exact (can_pour_facts h).2.1 this

theorem takeWhile_replicate_append (m : Nat) (c : Int) (rest : List Int)
    (hr : rest.head? ≠ some c) :
    (List.replicate m c ++ rest).takeWhile (fun x => x == c) = List.replicate m c := by
  induction m with
  | zero =>
    cases rest with
    | nil => rfl
    | cons a t =>
      simp only [List.replicate, List.nil_append, List.takeWhile]
      have : (a == c) = false := by
        simp only [List.head?] at hr
        simp only [beq_eq_false_iff_ne, ne_eq]
        intro h; exact hr (by rw [h])
      simp [this]
  | succ n ih =>
    simp only [List.replicate_succ, List.cons_append, List.takeWhile_cons,
      beq_self_eq_true, if_pos]
    simp [ih]

theorem topRunLen_of_run {ft rest : List Int} {k : Nat} {c : Int}
    (hk : 0 < k) (hrev : ft.reverse = List.replicate k c ++ rest)
    (hbelow : rest.head? ≠ some c) :
    topRunLen ft = k := by
  unfold topRunLen
  rw [hrev]
  obtain ⟨m, rfl⟩ : ∃ m, k = m + 1 := ⟨k - 1, by omega⟩
  simp only [List.replicate_succ, List.cons_append]
  rw [takeWhile_replicate_append m c rest hbelow]
  simp [List.length_replicate]
  omega

theorem pour_of_can_pour {s : TubeSolver} {i j : Nat} (h : s.can_pour i j = true) :
    s.pour i j =
      (true,
        { s with
          tubes :=
            (s.tubes.set i
              ((s.tubes.getD i []).take
                ((s.tubes.getD i []).length -
                  min (topRunLen (s.tubes.getD i []))
                    (s.tube_capacity - (s.tubes.getD j []).length)))).set j
              ((s.tubes.getD j []) ++
                (s.tubes.getD i []).drop
                  ((s.tubes.getD i []).length -
                    min (topRunLen (s.tubes.getD i []))
                      (s.tube_capacity - (s.tubes.getD j []).length)))
          moves := s.moves ++ [(i, j)] }) := by
  simp only [TubeSolver.pour, h, if_pos]

/-! ## C4: refusal without mutation -/

/-- C4. If `canPour(from,to)` is false then `pour(from,to)` returns false
and leaves the solver state (all tubes and the move trace) unchanged. -/
theorem pour_refusal (s : TubeSolver) (from_index to_index : Nat)
    (h : s.can_pour from_index to_index = false) :
    s.pour from_index to_index = (false, s) := by
  simp [TubeSolver.pour, h]

/-- Witness for C4 at the concrete state `[[1],[1]]` and the refused pair
`(0,0)`. -/
theorem pour_refusal_witness :
    (mkSolver [[1], [1]]).can_pour 0 0 = false ∧
    (mkSolver [[1], [1]]).pour 0 0 = (false, mkSolver [[1], [1]]) :=
  ⟨by decide, pour_refusal _ 0 0 (by decide)⟩

/-! ## C9: end-to-end example -/

/-- The spec's worked example: the two-tube configuration `[[1],[1]]` with
the capacity field set to 2 (`__init__` itself always sets 4; every method
reads the stored field). -/
def exampleCap2 : TubeSolver :=
  { mkSolver [[1], [1]] with tube_capacity := 2 }

/-- Counterexample to C9 as stated: for `[[1],[1]]` at capacity 2 it is not
the case that `pour(0,1)` succeeds with `isSolved()` then true — the final
`is_solved` call returns false, because `required_empty_tubes` is 0 (no
tube of the original configuration is empty) while the final state has one
empty tube. -/
theorem example_cap2_claim_false :
    ¬(exampleCap2.can_pour 0 1 = true ∧
      (exampleCap2.pour 0 1).1 = true ∧
      (exampleCap2.pour 0 1).2.tubes = [[], [1, 1]] ∧
      (exampleCap2.pour 0 1).2.is_solved = true) := by
  decide

/-- C9 (amended). For the two-tube configuration `[[1],[1]]` with capacity
2, the derived counts are one distinct color and zero required empty
tubes, `canPour(0,1)` holds, and `pour(0,1)` succeeds leaving tube 0 equal
to `[]` and tube 1 equal to `[1,1]`; but `isSolved()` then returns false,
since the count of empty tubes (1) differs from the required count (0). -/
theorem example_cap2_run :
    exampleCap2.total_colors = 1 ∧
    exampleCap2.empty_tubes_count = 0 ∧
    exampleCap2.can_pour 0 1 = true ∧
    (exampleCap2.pour 0 1).1 = true ∧
    (exampleCap2.pour 0 1).2.tubes = [[], [1, 1]] ∧
    (exampleCap2.pour 0 1).2.is_solved = false := by
  decide

/-! ## C1: run-pour correctness -/

/-- C1. If the top `k` units of the source tube all have color `c` (its
reversed contents start with `k` copies of `c`), the unit below them — if
any — has a different color, the destination has at least `k` free spaces,
and `canPour` holds, then `pour` returns true and moves exactly the top
`k` units onto the top of the destination: the source becomes its old
contents minus the top `k` units and the destination gains `k` units of
color `c` on top; afterwards the source is empty or its new top unit has a
different color (`getLast? ≠ some c` covers both). The last conjunct is
the general rule: a successful pour grows the destination by
`min(run_length, space)` units. -/
theorem pour_run_correct (s : TubeSolver) (i j k : Nat) (c : Int) (rest : List Int)
    (hj : j < s.tubes.length)
    (hk : 0 < k)
    (hrev : (s.tubes.getD i []).reverse = List.replicate k c ++ rest)
    (hbelow : rest.head? ≠ some c)
    (hspace : (s.tubes.getD j []).length + k ≤ s.tube_capacity)
    (hcan : s.can_pour i j = true) :
    (s.pour i j).1 = true ∧
    (s.pour i j).2.tubes =
      (s.tubes.set i rest.reverse).set j
        ((s.tubes.getD j []) ++ List.replicate k c) ∧
    ((s.pour i j).2.tubes.getD i []).getLast? ≠ some c ∧
    ((s.pour i j).2.tubes.getD j []).length =
      (s.tubes.getD j []).length +
        min (topRunLen (s.tubes.getD i []))
          (s.tube_capacity - (s.tubes.getD j []).length) := by
  have hij := (can_pour_facts hcan).1
  have hi := can_pour_src_lt hcan
  rw [pour_of_can_pour hcan]
  set ft := s.tubes.getD i [] with hftdef
  set tt := s.tubes.getD j [] with httdef
  have hft : ft = rest.reverse ++ List.replicate k c := by
    have h2 := congrArg List.reverse hrev
    simpa using h2
  have hrun : topRunLen ft = k := topRunLen_of_run hk hrev hbelow
  have hktr : min (topRunLen ft) (s.tube_capacity - tt.length) = k := by
    rw [hrun]; omega
  have hlen : ft.length = rest.length + k := by
    rw [hft]; simp
  have htake : ft.take (ft.length - k) = rest.reverse := by
    rw [hft]
    have he : (rest.reverse ++ List.replicate k c).length - k
        = rest.reverse.length := by simp
    rw [he, List.take_left]
  have hdrop : ft.drop (ft.length - k) = List.replicate k c := by
    rw [hft]
    have he : (rest.reverse ++ List.replicate k c).length - k
        = rest.reverse.length := by simp
    rw [he, List.drop_left]
  refine ⟨rfl, ?_, ?_, ?_⟩
  · simp only [hktr, htake, hdrop]
  · rw [List.getD_eq_getElem?_getD,
      List.getElem?_set_ne (fun hh => hij hh.symm),
      List.getElem?_set_self (by simpa using hi)]
    simp only [Option.getD_some]
    rw [hktr, htake, List.getLast?_reverse]
    exact hbelow
  · rw [List.getD_eq_getElem?_getD,
      List.getElem?_set_self (by simpa using hj)]
    simp only [Option.getD_some]
    rw [hktr, hdrop]
    simp

/-- Witness for C1: pouring the top run of two `1`-units from `[2,1,1]`
onto `[1]` in a fresh solver moves both units. -/
theorem pour_run_correct_witness :
    (1 < (mkSolver [[2, 1, 1], [1]]).tubes.length ∧ 0 < 2 ∧
      ((mkSolver [[2, 1, 1], [1]]).tubes.getD 0 []).reverse
        = List.replicate 2 1 ++ [2] ∧
      ([2] : List Int).head? ≠ some 1 ∧
      ((mkSolver [[2, 1, 1], [1]]).tubes.getD 1 []).length + 2
        ≤ (mkSolver [[2, 1, 1], [1]]).tube_capacity ∧
      (mkSolver [[2, 1, 1], [1]]).can_pour 0 1 = true) ∧
    (((mkSolver [[2, 1, 1], [1]]).pour 0 1).1 = true ∧
      ((mkSolver [[2, 1, 1], [1]]).pour 0 1).2.tubes =
        (((mkSolver [[2, 1, 1], [1]]).tubes.set 0 ([2] : List Int).reverse).set 1
          (((mkSolver [[2, 1, 1], [1]]).tubes.getD 1 []) ++ List.replicate 2 1)) ∧
      (((mkSolver [[2, 1, 1], [1]]).pour 0 1).2.tubes.getD 0 []).getLast?
        ≠ some 1 ∧
      (((mkSolver [[2, 1, 1], [1]]).pour 0 1).2.tubes.getD 1 []).length =
        ((mkSolver [[2, 1, 1], [1]]).tubes.getD 1 []).length +
          min (topRunLen ((mkSolver [[2, 1, 1], [1]]).tubes.getD 0 []))
            ((mkSolver [[2, 1, 1], [1]]).tube_capacity -
              ((mkSolver [[2, 1, 1], [1]]).tubes.getD 1 []).length)) :=
  ⟨⟨by decide, by decide, by decide, by decide, by decide, by decide⟩,
    pour_run_correct (mkSolver [[2, 1, 1], [1]]) 0 1 2 1 [2] (by decide)
      (by decide) (by decide) (by decide) (by decide) (by decide)⟩

/-! ## C10: frame property of a successful pour -/

/-- C10. A successful pour returns true, touches only the two tubes at the
given indices (every other tube is unchanged, as is the tube count), leaves
`original_tubes`, the capacity, `total_colors`, `empty_tubes_count` and the
visited set unchanged, and appends exactly the pair `(from,to)` at the end
of the move trace. -/
theorem pour_frame (s : TubeSolver) (i j : Nat) (hcan : s.can_pour i j = true) :
    (s.pour i j).1 = true ∧
    (∀ k, k ≠ i → k ≠ j → (s.pour i j).2.tubes[k]? = s.tubes[k]?) ∧
    (s.pour i j).2.tubes.length = s.tubes.length ∧
    (s.pour i j).2.original_tubes = s.original_tubes ∧
    (s.pour i j).2.tube_capacity = s.tube_capacity ∧
    (s.pour i j).2.total_colors = s.total_colors ∧
    (s.pour i j).2.empty_tubes_count = s.empty_tubes_count ∧
    (s.pour i j).2.visited_states = s.visited_states ∧
    (s.pour i j).2.moves = s.moves ++ [(i, j)] := by
  rw [pour_of_can_pour hcan]
  refine ⟨rfl, ?_, by simp, rfl, rfl, rfl, rfl, rfl, rfl⟩
  intro k hki hkj
  simp only
  rw [List.getElem?_set_ne (fun hh => hkj hh.symm),
    List.getElem?_set_ne (fun hh => hki hh.symm)]

/-- Witness for C10 at the concrete state `[[1],[1]]` with the legal pour
`(0,1)`. -/
theorem pour_frame_witness :
    (mkSolver [[1], [1], [2]]).can_pour 0 1 = true ∧
    ((mkSolver [[1], [1], [2]]).pour 0 1).1 = true ∧
    ((mkSolver [[1], [1], [2]]).pour 0 1).2.tubes[2]?
      = (mkSolver [[1], [1], [2]]).tubes[2]? ∧
    ((mkSolver [[1], [1], [2]]).pour 0 1).2.moves = [(0, 1)] := by
  refine ⟨by decide, ?_, ?_, ?_⟩
  · exact (pour_frame (mkSolver [[1], [1], [2]]) 0 1 (by decide)).1
  · exact (pour_frame (mkSolver [[1], [1], [2]]) 0 1 (by decide)).2.1 2
      (by decide) (by decide)
  · have h := (pour_frame (mkSolver [[1], [1], [2]]) 0 1 (by decide)).2.2.2.2.2.2.2.2
    simpa using h

/-! ## C5: fingerprint canonicalization -/

/-- C5. Whenever the tube lists of two solver states are permutations of
each other — in particular, whenever the two states differ only by a
permutation of pairwise equal or empty tubes — `get_state_hash` produces
identical strings: the per-tube serializations are sorted before joining,
so the fingerprint does not depend on which tube occupies which index. -/
theorem get_state_hash_perm (s₁ s₂ : TubeSolver)
    (h : s₁.tubes.Perm s₂.tubes) :
    s₁.get_state_hash = s₂.get_state_hash := by
  unfold TubeSolver.get_state_hash
  congr 1
  exact List.eq_of_perm_of_sorted
    ((List.perm_insertionSort _ _).trans
      ((h.map serializeTube).trans (List.perm_insertionSort _ _).symm))
    (List.sorted_insertionSort _ _) (List.sorted_insertionSort _ _)

/-- Witness for C5: swapping an empty tube and a pair of identical tubes
across indices yields the same fingerprint. -/
theorem get_state_hash_perm_witness :
    (mkSolver [[1], [], [2, 2], [1]]).tubes.Perm
      (mkSolver [[], [1], [1], [2, 2]]).tubes ∧
    (mkSolver [[1], [], [2, 2], [1]]).get_state_hash
      = (mkSolver [[], [1], [1], [2, 2]]).get_state_hash :=
  ⟨by decide,
    get_state_hash_perm (mkSolver [[1], [], [2, 2], [1]])
      (mkSolver [[], [1], [1], [2, 2]]) (by decide)⟩

/-! ## C3: solved-detection exactness -/

/-- The per-tube property counted as `completed` by the `is_solved` loop:
nonempty, exactly at capacity, and all units of one color. -/
def isFullMono (cap : Nat) (t : List Int) : Bool :=
  match t with
  | [] => false
  | c :: tl => (c :: tl).length == cap && tl.all (fun x => x == c)

theorem isSolvedLoop_spec (cap : Nat) (ts : List (List Int)) :
    ∀ a b : Nat,
      isSolvedLoop cap ts a b =
        if ∀ t ∈ ts, t.isEmpty = true ∨ isFullMono cap t = true then
          some (a + ts.countP (isFullMono cap), b + ts.countP List.isEmpty)
        else none := by
  induction ts with
  | nil => intro a b; simp [isSolvedLoop]
  | cons t rest ih =>
    intro a b
    cases t with
    | nil =>
      have hP : ([] : List Int).isEmpty = true ∨ isFullMono cap [] = true :=
        Or.inl rfl
      rw [show isSolvedLoop cap ([] :: rest) a b
          = isSolvedLoop cap rest a (b + 1) from rfl, ih]
      by_cases hrest : ∀ t ∈ rest, t.isEmpty = true ∨ isFullMono cap t = true
      · have hcons : ∀ t ∈ ([] : List Int) :: rest,
            t.isEmpty = true ∨ isFullMono cap t = true := by
          intro t ht
          rcases List.mem_cons.mp ht with rfl | ht'
          · exact hP
          · exact hrest t ht'
        rw [if_pos hrest, if_pos hcons]
        simp only [List.countP_cons, Option.some.injEq, Prod.mk.injEq,
          show isFullMono cap [] = false from rfl,
          show ([] : List Int).isEmpty = true from rfl]
        constructor <;> simp <;> omega
      · rw [if_neg hrest,
          if_neg (fun hc => hrest (fun t ht => hc t (List.mem_cons_of_mem _ ht)))]
    | cons c tl =>
      rw [show isSolvedLoop cap ((c :: tl) :: rest) a b
          = if (c :: tl).length ≠ cap then none
            else if tl.all (fun x => x == c) then
              isSolvedLoop cap rest (a + 1) b
            else none from rfl]
      by_cases hlen : (c :: tl).length = cap
      · by_cases hall : tl.all (fun x => x == c) = true
        · have hfm : isFullMono cap (c :: tl) = true := by
            simp only [isFullMono, hall, Bool.and_true]
            simpa using hlen
          rw [if_neg (by simpa using hlen), if_pos hall, ih]
          by_cases hrest : ∀ t ∈ rest,
              t.isEmpty = true ∨ isFullMono cap t = true
          · have hcons : ∀ t ∈ (c :: tl) :: rest,
                t.isEmpty = true ∨ isFullMono cap t = true := by
              intro t ht
              rcases List.mem_cons.mp ht with rfl | ht'
              · exact Or.inr hfm
              · exact hrest t ht'
            rw [if_pos hrest, if_pos hcons]
            simp only [List.countP_cons, Option.some.injEq, Prod.mk.injEq, hfm,
              List.isEmpty_cons]
            constructor <;> simp <;> omega
          · rw [if_neg hrest,
              if_neg (fun hc =>
                hrest (fun t ht => hc t (List.mem_cons_of_mem _ ht)))]
        · rw [if_neg (by simpa using hlen), if_neg (by simpa using hall)]
          rw [if_neg]
          intro hcond
          rcases (List.forall_mem_cons.mp hcond).1 with he | hm
          · simp at he
          · rw [isFullMono] at hm
            exact hall (Bool.and_eq_true_iff.mp hm).2
      · rw [if_pos (by simpa using hlen)]
        rw [if_neg]
        intro hcond
        rcases (List.forall_mem_cons.mp hcond).1 with he | hm
        · simp at he
        · rw [isFullMono] at hm
          exact hlen (by simpa using (Bool.and_eq_true_iff.mp hm).1)

/-- C3. `is_solved` returns true exactly when every tube is empty or full
of a single color, the number of completed (full single-color) tubes
equals `total_colors` — the number of distinct colors of the original
configuration — and the number of empty tubes equals the number of tubes
that were empty in the original configuration. -/
theorem is_solved_iff (s : TubeSolver)
    (htc : s.total_colors = countTotalColors s.original_tubes)
    (hec : s.empty_tubes_count = countEmptyTubes s.original_tubes) :
    s.is_solved = true ↔
      ((∀ t ∈ s.tubes, t.isEmpty = true ∨ isFullMono s.tube_capacity t = true) ∧
        s.tubes.countP (isFullMono s.tube_capacity)
          = countTotalColors s.original_tubes ∧
        s.tubes.countP List.isEmpty = countEmptyTubes s.original_tubes) := by
  unfold TubeSolver.is_solved
  rw [isSolvedLoop_spec]
  split_ifs with hall
  · simp only [Nat.zero_add, htc, hec]
    constructor
    · intro h
      rcases Bool.and_eq_true_iff.mp h with ⟨h1, h2⟩
      exact ⟨hall, beq_iff_eq.mp h1, beq_iff_eq.mp h2⟩
    · intro ⟨_, h1, h2⟩
      rw [h1, h2]
      simp
  · simp only [Bool.false_eq_true, false_iff]
    intro ⟨h1, _, _⟩
    exact hall h1

/-- Witness for C3 at the solved two-tube state `[[1,1,1,1],[]]` (one
color, one originally-empty tube). -/
theorem is_solved_iff_witness :
    (mkSolver [[1, 1, 1, 1], []]).total_colors
      = countTotalColors (mkSolver [[1, 1, 1, 1], []]).original_tubes ∧
    (mkSolver [[1, 1, 1, 1], []]).empty_tubes_count
      = countEmptyTubes (mkSolver [[1, 1, 1, 1], []]).original_tubes ∧
    ((mkSolver [[1, 1, 1, 1], []]).is_solved = true ↔
      ((∀ t ∈ (mkSolver [[1, 1, 1, 1], []]).tubes,
          t.isEmpty = true ∨
          isFullMono (mkSolver [[1, 1, 1, 1], []]).tube_capacity t = true) ∧
        (mkSolver [[1, 1, 1, 1], []]).tubes.countP
            (isFullMono (mkSolver [[1, 1, 1, 1], []]).tube_capacity)
          = countTotalColors (mkSolver [[1, 1, 1, 1], []]).original_tubes ∧
        (mkSolver [[1, 1, 1, 1], []]).tubes.countP List.isEmpty
          = countEmptyTubes (mkSolver [[1, 1, 1, 1], []]).original_tubes)) :=
  ⟨by decide, by decide,
    is_solved_iff (mkSolver [[1, 1, 1, 1], []]) (by decide) (by decide)⟩

/-! ## C2: unit conservation and capacity invariant -/

theorem flatten_multiset (l : List (List Int)) :
    Multiset.ofList l.flatten = (l.map Multiset.ofList).sum := by
  induction l with
  | nil => rfl
  | cons h t ih =>
    simp only [List.flatten_cons, List.map_cons, List.sum_cons, ← ih]
    exact (Multiset.coe_add h t.flatten).symm

theorem sum_set_add (l : List (Multiset Int)) (i : Nat) (hi : i < l.length)
    (a : Multiset Int) : (l.set i a).sum + l.getD i 0 = l.sum + a := by
  induction l generalizing i with
  | nil => simp at hi
  | cons x t ih =>
    cases i with
    | zero => simp [add_comm, add_left_comm]
    | succ n =>
      simp only [List.set_cons_succ, List.sum_cons, List.getD_cons_succ]
      rw [add_assoc, ih n (by simpa using hi), ← add_assoc]

theorem getD_map_ofList (l : List (List Int)) (i : Nat) (hi : i < l.length) :
    (l.map Multiset.ofList).getD i 0 = Multiset.ofList (l.getD i []) := by
  rw [List.getD_eq_getElem?_getD, List.getD_eq_getElem?_getD,
    List.getElem?_map, List.getElem?_eq_getElem hi]
  rfl

theorem getD_set_ne (l : List (Multiset Int)) (i j : Nat) (hij : i ≠ j)
    (a : Multiset Int) : (l.set i a).getD j 0 = l.getD j 0 := by
  rw [List.getD_eq_getElem?_getD, List.getD_eq_getElem?_getD,
    List.getElem?_set_ne hij]

theorem pour_tube_capacity (s : TubeSolver) (i j : Nat) :
    (s.pour i j).2.tube_capacity = s.tube_capacity := by
  cases hcan : s.can_pour i j
  · simp [TubeSolver.pour, hcan]
  · rw [pour_of_can_pour hcan]

theorem pour_tubes_length (s : TubeSolver) (i j : Nat) :
    (s.pour i j).2.tubes.length = s.tubes.length := by
  cases hcan : s.can_pour i j
  · simp [TubeSolver.pour, hcan]
  · rw [pour_of_can_pour hcan]; simp

theorem pour_flatten_multiset (s : TubeSolver) (i j : Nat)
    (hj : j < s.tubes.length) :
    Multiset.ofList (s.pour i j).2.tubes.flatten
      = Multiset.ofList s.tubes.flatten := by
  cases hcan : s.can_pour i j
  · simp [TubeSolver.pour, hcan]
  · have hij := (can_pour_facts hcan).1
    have hi := can_pour_src_lt hcan
    rw [pour_of_can_pour hcan]
    simp only
    rw [flatten_multiset, flatten_multiset, List.map_set, List.map_set]
    set ft := s.tubes.getD i [] with hftdef
    set tt := s.tubes.getD j [] with httdef
    set n := ft.length - min (topRunLen ft) (s.tube_capacity - tt.length)
      with hndef
    set M := s.tubes.map Multiset.ofList with hMdef
    have hMlen : M.length = s.tubes.length := by
      rw [hMdef, List.length_map]
    have hMi : M.getD i 0 = Multiset.ofList ft := by
      rw [hMdef, getD_map_ofList s.tubes i hi, hftdef]
    have hMj : M.getD j 0 = Multiset.ofList tt := by
      rw [hMdef, getD_map_ofList s.tubes j hj, httdef]
    set A' := Multiset.ofList (ft.take n) with hAdef
    set B' := Multiset.ofList (tt ++ ft.drop n) with hBdef
    set X := M.getD i 0 with hXdef
    set Y := M.getD j 0 with hYdef
    have e1 : ((M.set i A').set j B').sum + (M.set i A').getD j 0
        = (M.set i A').sum + B' :=
      sum_set_add _ j (by rw [List.length_set]; omega) _
    have e2 : (M.set i A').sum + X = M.sum + A' :=
      sum_set_add M i (by omega) _
    have hObs : (M.set i A').getD j 0 = Y := getD_set_ne M i j hij A'
    have key : ((M.set i A').set j B').sum + Y = (M.set i A').sum + B' := by
      rw [← hObs]; exact e1
    have hperm : (ft.take n ++ (tt ++ ft.drop n)).Perm (ft ++ tt) := by
      have h1 : (ft.take n ++ (tt ++ ft.drop n)).Perm
          (ft.take n ++ (ft.drop n ++ tt)) :=
        List.Perm.append_left _ List.perm_append_comm
      have h2 : ft.take n ++ (ft.drop n ++ tt) = ft ++ tt := by
        rw [← List.append_assoc, List.take_append_drop]
      exact h1.trans (h2 ▸ List.Perm.refl _)
    have hsplit : A' + B' = X + Y := by
      rw [hAdef, hBdef, hMi, hMj]
      rw [show Multiset.ofList (ft.take n) + Multiset.ofList (tt ++ ft.drop n)
          = ((ft.take n ++ (tt ++ ft.drop n) : List Int) : Multiset Int) from
        (Multiset.coe_add _ _)]
      rw [show (Multiset.ofList ft + Multiset.ofList tt : Multiset Int)
          = ((ft ++ tt : List Int) : Multiset Int) from (Multiset.coe_add _ _)]
      exact Multiset.coe_eq_coe.mpr hperm
    have h4 : ((M.set i A').set j B').sum + Y + X = M.sum + A' + B' := by
      calc ((M.set i A').set j B').sum + Y + X
          = (M.set i A').sum + B' + X := by rw [key]
        _ = (M.set i A').sum + X + B' := by
            rw [add_assoc, add_comm B' X, ← add_assoc]
        _ = M.sum + A' + B' := by rw [e2]
    have h5 : ((M.set i A').set j B').sum + (Y + X) = M.sum + (Y + X) := by
      calc ((M.set i A').set j B').sum + (Y + X)
          = ((M.set i A').set j B').sum + Y + X := by rw [add_assoc]
        _ = M.sum + A' + B' := h4
        _ = M.sum + (A' + B') := by rw [add_assoc]
        _ = M.sum + (X + Y) := by rw [hsplit]
        _ = M.sum + (Y + X) := by rw [add_comm X Y]
    exact add_right_cancel h5

theorem pour_capacity_bound (s : TubeSolver) (i j : Nat)
    (hcap : ∀ t ∈ s.tubes, t.length ≤ s.tube_capacity) :
    ∀ t ∈ (s.pour i j).2.tubes, t.length ≤ s.tube_capacity := by
  cases hcan : s.can_pour i j
  · simp only [TubeSolver.pour, hcan]
    simpa using hcap
  · have hi := can_pour_src_lt hcan
    have hlt := (can_pour_facts hcan).2.2
    rw [pour_of_can_pour hcan]
    intro t ht
    simp only at ht
    rcases List.mem_or_eq_of_mem_set ht with ht2 | rfl
    · rcases List.mem_or_eq_of_mem_set ht2 with ht3 | rfl
      · exact hcap t ht3
      · calc (List.take _ _).length ≤ (s.tubes.getD i []).length := by
              simp [List.length_take]
          _ = (s.tubes[i]).length := by rw [List.getD_eq_getElem]
          _ ≤ s.tube_capacity := hcap _ (List.getElem_mem _)
    · have hdl : ((s.tubes.getD i []).drop
          ((s.tubes.getD i []).length -
            min (topRunLen (s.tubes.getD i []))
              (s.tube_capacity - (s.tubes.getD j []).length))).length
          ≤ min (topRunLen (s.tubes.getD i []))
              (s.tube_capacity - (s.tubes.getD j []).length) := by
        simp [List.length_drop]
        omega
      simp only [List.length_append]
      omega

/-- Reachability by a sequence of `pour` calls (with valid tube indices,
as in Python where an out-of-range index raises) from the state built by
`__init__` on the initial configuration. -/
inductive Reachable (init : List (List Int)) : TubeSolver → Prop
  | base : Reachable init (mkSolver init)
  | step (s : TubeSolver) (i j : Nat) (hi : i < s.tubes.length)
      (hj : j < s.tubes.length) (hr : Reachable init s) :
      Reachable init (s.pour i j).2

/-- C2. Every state reachable from an initial configuration (whose tubes
respect the capacity) by any sequence of `pour` calls has the same
multiset of color units across all tubes as the initial configuration, and
no tube ever exceeds the fixed capacity of 4. -/
theorem reachable_invariant (init : List (List Int)) (s : TubeSolver)
    (hcap : ∀ t ∈ init, t.length ≤ 4)
    (h : Reachable init s) :
    Multiset.ofList s.tubes.flatten = Multiset.ofList init.flatten ∧
    (∀ t ∈ s.tubes, t.length ≤ 4) ∧
    s.tube_capacity = 4 := by
  induction h with
  | base => exact ⟨rfl, hcap, rfl⟩
  | step s' i j hi hj hr ih =>
    obtain ⟨ihm, ihc, ihcap⟩ := ih
    refine ⟨?_, ?_, ?_⟩
    · rw [pour_flatten_multiset s' i j hj]
      exact ihm
    · intro t ht
      have h2 := pour_capacity_bound s' i j
        (fun u hu => by rw [ihcap]; exact ihc u hu) t ht
      rwa [ihcap] at h2
    · rw [pour_tube_capacity, ihcap]

/-- Witness for C2: the state after one pour on `[[1],[1]]` keeps the unit
multiset and the capacity bound. -/
theorem reachable_invariant_witness :
    (∀ t ∈ ([[1], [1]] : List (List Int)), t.length ≤ 4) ∧
    (Multiset.ofList ((mkSolver [[1], [1]]).pour 0 1).2.tubes.flatten
        = Multiset.ofList ([[1], [1]] : List (List Int)).flatten ∧
      (∀ t ∈ ((mkSolver [[1], [1]]).pour 0 1).2.tubes, t.length ≤ 4) ∧
      ((mkSolver [[1], [1]]).pour 0 1).2.tube_capacity = 4) :=
  ⟨by decide,
    reachable_invariant [[1], [1]] ((mkSolver [[1], [1]]).pour 0 1).2
      (by decide)
      (Reachable.step (mkSolver [[1], [1]]) 0 1 (by decide) (by decide)
        Reachable.base)⟩

/-! ## C8: backup-move exhaustiveness -/

theorem can_pour_oob_src (s : TubeSolver) (i j : Nat)
    (hi : s.tubes.length ≤ i) : s.can_pour i j = false := by
  by_contra h
  rw [Bool.not_eq_false] at h
  exact absurd (can_pour_src_lt h) (by omega)

theorem can_pour_all_of_bounded (s : TubeSolver)
    (h : ∀ i < s.tubes.length, ∀ j < s.tubes.length, s.can_pour i j = false) :
    ∀ i j, j < s.tubes.length → s.can_pour i j = false := by
  intro i j hj
  by_cases hi : i < s.tubes.length
  · exact h i hi j hj
  · exact can_pour_oob_src s i j (by omega)

theorem mem_enum_fst_lt {l : List (List Int)} {p : Nat × List Int}
    (hp : p ∈ l.enum) : p.1 < l.length := by
  obtain ⟨ti, t⟩ := p
  have h2 := List.mk_mem_enum_iff_getElem?.mp hp
  by_contra hge
  rw [List.getElem?_eq_none (by omega)] at h2
  exact Option.noConfusion h2

theorem backupFirstPass_none_of (s : TubeSolver)
    (h : ∀ i j, j < s.tubes.length → s.can_pour i j = false) :
    backupFirstPass s = none := by
  unfold backupFirstPass
  rw [List.findSome?_eq_none_iff]
  intro p hp
  have hplt : p.1 < s.tubes.length := mem_enum_fst_lt hp
  split_ifs with hlen
  · cases hh : p.2.head? with
    | none => rfl
    | some color =>
      simp only
      split_ifs with hall
      · rw [List.findSome?_eq_none_iff]
        intro from_idx _
        rw [if_neg]
        intro ⟨_, hcp, _, _⟩
        rw [h from_idx p.1 hplt] at hcp
        exact Bool.noConfusion hcp
      · rfl
  · rfl

theorem backupSecondPass_none_iff (s : TubeSolver) :
    backupSecondPass s = none ↔
      ∀ i < s.tubes.length, ∀ j < s.tubes.length, s.can_pour i j = false := by
  unfold backupSecondPass
  rw [List.findSome?_eq_none_iff]
  constructor
  · intro h i hi j hj
    have h2 := h i (List.mem_range.mpr hi)
    rw [List.findSome?_eq_none_iff] at h2
    have h3 := h2 j (List.mem_range.mpr hj)
    by_contra hp
    rw [Bool.not_eq_false] at hp
    rw [if_pos hp] at h3
    exact Option.noConfusion h3
  · intro h i hi
    rw [List.findSome?_eq_none_iff]
    intro j hj
    rw [if_neg]
    rw [h i (List.mem_range.mp hi) j (List.mem_range.mp hj)]
    exact Bool.noConfusion

theorem backupFirstPass_legal (s : TubeSolver) (m : Nat × Nat)
    (hm : backupFirstPass s = some m) : s.can_pour m.1 m.2 = true := by
  unfold backupFirstPass at hm
  rcases List.exists_of_findSome?_eq_some hm with ⟨p, hp, hf⟩
  by_cases hlen : (p.2.length == s.tube_capacity - 1) = true
  · rw [if_pos hlen] at hf
    cases hh : p.2.head? with
    | none => rw [hh] at hf; exact Option.noConfusion hf
    | some color =>
      rw [hh] at hf
      simp only at hf
      by_cases hall : (p.2.all fun c => c == color) = true
      · rw [if_pos hall] at hf
        rcases List.exists_of_findSome?_eq_some hf with ⟨from_idx, _, hg⟩
        by_cases hcond : from_idx ≠ p.1 ∧ s.can_pour from_idx p.1 = true ∧
            (s.tubes.getD from_idx []) ≠ [] ∧
            (s.tubes.getD from_idx []).getLast? = some color
        · rw [if_pos hcond] at hg
          injection hg with hg2
          subst hg2
          exact hcond.2.1
        · rw [if_neg hcond] at hg; exact Option.noConfusion hg
      · rw [if_neg hall] at hf; exact Option.noConfusion hf
  · rw [if_neg hlen] at hf; exact Option.noConfusion hf

theorem backupSecondPass_legal (s : TubeSolver) (m : Nat × Nat)
    (hm : backupSecondPass s = some m) : s.can_pour m.1 m.2 = true := by
  unfold backupSecondPass at hm
  rcases List.exists_of_findSome?_eq_some hm with ⟨i, _, hf⟩
  rcases List.exists_of_findSome?_eq_some hf with ⟨j, _, hg⟩
  by_cases hcond : s.can_pour i j = true
  · rw [if_pos hcond] at hg
    injection hg with hg2
    subst hg2
    exact hcond
  · rw [if_neg hcond] at hg; exact Option.noConfusion hg

theorem find_backup_move_none_of (s : TubeSolver)
    (h : ∀ i j, j < s.tubes.length → s.can_pour i j = false) :
    s.find_backup_move = none := by
  unfold TubeSolver.find_backup_move
  rw [backupFirstPass_none_of s h]
  exact (backupSecondPass_none_iff s).mpr
    (fun i hi j hj => h i j hj)

/-- C8. `find_backup_move` returns no move exactly when no (from,to) pair
of valid indices admits a legal pour; and any move it returns is a legal
pour (found by the almost-complete-tube first pass, or — only if that pass
finds nothing — by the exhaustive index-order scan, which by construction
is the definition of `find_backup_move`). -/
theorem find_backup_move_spec (s : TubeSolver) :
    (s.find_backup_move = none ↔
      ∀ i < s.tubes.length, ∀ j < s.tubes.length, s.can_pour i j = false) ∧
    (∀ m, s.find_backup_move = some m → s.can_pour m.1 m.2 = true) := by
  constructor
  · constructor
    · intro hnone
      unfold TubeSolver.find_backup_move at hnone
      cases hfp : backupFirstPass s with
      | some m => rw [hfp] at hnone; exact Option.noConfusion hnone
      | none =>
        rw [hfp] at hnone
        exact (backupSecondPass_none_iff s).mp hnone
    · intro h
      exact find_backup_move_none_of s (can_pour_all_of_bounded s h)
  · intro m hm
    unfold TubeSolver.find_backup_move at hm
    cases hfp : backupFirstPass s with
    | some m' =>
      rw [hfp] at hm
      injection hm with hm2
      subst hm2
      exact backupFirstPass_legal s _ hfp
    | none =>
      rw [hfp] at hm
      exact backupSecondPass_legal s m hm

/-! ## C6: stuck deadlock outcome -/

theorem mem_tubes_with_space_lt (s : TubeSolver) :
    ∀ x ∈ s.get_tubes_with_space, x < s.tubes.length := by
  intro x hx
  unfold TubeSolver.get_tubes_with_space at hx
  exact List.mem_range.mp (List.mem_filter.mp hx).1

theorem mem_empty_tubes_lt (s : TubeSolver) :
    ∀ x ∈ s.get_empty_tubes, x < s.tubes.length := by
  intro x hx
  unfold TubeSolver.get_empty_tubes at hx
  exact List.mem_range.mp (List.mem_filter.mp hx).1

theorem collectFreeMoves_nil (s : TubeSolver) (tc : Int)
    (h : ∀ i j, j < s.tubes.length → s.can_pour i j = false) :
    collectFreeMoves s tc = [] := by
  unfold collectFreeMoves
  rw [List.flatMap_eq_nil_iff]
  intro pos _
  have hcF : ∀ to_idx ∈ s.get_tubes_with_space,
      ¬(pos.tube_index ≠ to_idx ∧
        s.can_pour pos.tube_index to_idx = true) := by
    intro to_idx hto hand
    rw [h pos.tube_index to_idx (mem_tubes_with_space_lt s to_idx hto)]
      at hand
    exact Bool.noConfusion hand.2
  have hcE : ∀ to_idx ∈ s.get_empty_tubes,
      ¬(pos.tube_index ≠ to_idx ∧
        s.can_pour pos.tube_index to_idx = true) := by
    intro to_idx hto hand
    rw [h pos.tube_index to_idx (mem_empty_tubes_lt s to_idx hto)] at hand
    exact Bool.noConfusion hand.2
  by_cases htop : pos.is_top = true
  · rw [if_pos htop, List.filterMap_eq_nil_iff]
    intro a ha
    exact if_neg (hcF a ha)
  · rw [if_neg htop]
    by_cases hbl : pos.blocking_colors ≠ []
    · rw [if_pos hbl]
      rw [List.append_eq_nil]
      exact ⟨(List.filterMap_eq_nil_iff).mpr fun a ha => if_neg (hcF a ha),
        (List.filterMap_eq_nil_iff).mpr fun a ha => if_neg (hcE a ha)⟩
    · rw [if_neg hbl]

theorem mergeMovesFor_nil (s : TubeSolver) (tc : Int)
    (h : ∀ i j, j < s.tubes.length → s.can_pour i j = false) :
    mergeMovesFor s tc = [] := by
  unfold mergeMovesFor
  have hlt : ∀ x ∈ tubesWithTargetTop s tc, x < s.tubes.length := by
    intro x hx
    unfold tubesWithTargetTop at hx
    exact List.mem_range.mp (List.mem_filter.mp hx).1
  split_ifs with hlen
  · rw [List.flatMap_eq_nil_iff]
    intro p _
    rw [List.filterMap_eq_nil_iff]
    intro a ha
    refine if_neg ?_
    intro hcp
    rw [h p.2 a (hlt a (List.mem_of_mem_drop ha))] at hcp
    exact Bool.noConfusion hcp
  · rfl

theorem find_moves_for_color_nil (s : TubeSolver) (tc : Int)
    (h : ∀ i j, j < s.tubes.length → s.can_pour i j = false) :
    s.find_moves_for_color tc = [] := by
  unfold TubeSolver.find_moves_for_color
  rw [collectFreeMoves_nil s tc h, mergeMovesFor_nil s tc h]
  rfl

theorem solveStep_stuck (s0 : TubeSolver) (r : Nat)
    (hnv : s0.get_state_hash ∉ s0.visited_states)
    (h : ∀ i j, j < s0.tubes.length → s0.can_pour i j = false) :
    solveStep s0 r =
      ({ s0 with
          visited_states := s0.get_state_hash :: s0.visited_states }, false) := by
  unfold solveStep
  rw [if_neg hnv]
  have hbk : TubeSolver.find_backup_move
      { s0 with visited_states := s0.get_state_hash :: s0.visited_states }
      = none :=
    find_backup_move_none_of _ (fun i j hj => h i j hj)
  have hfm : ∀ tc, TubeSolver.find_moves_for_color
      { s0 with visited_states := s0.get_state_hash :: s0.visited_states } tc
      = [] :=
    fun tc => find_moves_for_color_nil _ tc (fun i j hj => h i j hj)
  cases htc : TubeSolver.find_target_color
      { s0 with visited_states := s0.get_state_hash :: s0.visited_states } with
  | none => simp only [htc, hbk]
  | some tc =>
    simp only [htc]
    split_ifs with h0
    · rw [hfm tc]
      simp only [hbk]
    · simp only [hbk]

/-- C6. If the (reset) initial configuration is not solved and no pair of
valid tube indices admits a legal pour, then `solve` — for every choice
oracle and every amount of fuel — returns the unsolved verdict `false`
with an empty move trace; the deadlock is a returned value of the total
function, not an error. -/
theorem solve_stuck (s : TubeSolver) (rand : Nat → Nat) (fuel : Nat)
    (hns : s.resetState.is_solved = false)
    (hnp : ∀ i < s.resetState.tubes.length,
      ∀ j < s.resetState.tubes.length, s.resetState.can_pour i j = false) :
    (s.solve rand fuel).1 = false ∧ (s.solve rand fuel).2.moves = [] := by
  have hnp' : ∀ i j, j < s.resetState.tubes.length →
      s.resetState.can_pour i j = false :=
    can_pour_all_of_bounded s.resetState hnp
  unfold TubeSolver.solve
  simp only
  cases fuel with
  | zero => exact ⟨hns, rfl⟩
  | succ f =>
    have hnv : s.resetState.get_state_hash ∉ s.resetState.visited_states := by
      rw [show s.resetState.visited_states = [] from rfl]
      exact List.not_mem_nil _
    rw [solveLoop]
    rw [if_neg (by rw [hns]; exact Bool.noConfusion)]
    rw [solveStep_stuck s.resetState (rand f) hnv hnp']
    exact ⟨hns, rfl⟩

/-- Witness for C6: three full tubes of interleaved colors with no legal
pour anywhere; `solve` returns false with an empty trace. -/
theorem solve_stuck_witness :
    ((mkSolver [[1, 2, 1, 2], [2, 1, 2, 1], [1, 2, 1, 2]]).resetState.is_solved
        = false ∧
      (∀ i < (mkSolver [[1, 2, 1, 2], [2, 1, 2, 1],
          [1, 2, 1, 2]]).resetState.tubes.length,
        ∀ j < (mkSolver [[1, 2, 1, 2], [2, 1, 2, 1],
          [1, 2, 1, 2]]).resetState.tubes.length,
        (mkSolver [[1, 2, 1, 2], [2, 1, 2, 1],
          [1, 2, 1, 2]]).resetState.can_pour i j = false)) ∧
    (((mkSolver [[1, 2, 1, 2], [2, 1, 2, 1], [1, 2, 1, 2]]).solve
        (fun _ => 0) 5).1 = false ∧
      ((mkSolver [[1, 2, 1, 2], [2, 1, 2, 1], [1, 2, 1, 2]]).solve
        (fun _ => 0) 5).2.moves = []) :=
  ⟨⟨by decide, by decide⟩,
    solve_stuck (mkSolver [[1, 2, 1, 2], [2, 1, 2, 1], [1, 2, 1, 2]])
      (fun _ => 0) 5 (by decide) (by decide)⟩

/-! ## C7: target-color selection -/

/-- A color is collectible in a state when its total unit count across all
tubes equals the capacity and at least one tube shows it on top. -/
def IsCollectible (s : TubeSolver) (c : Int) : Prop :=
  s.tubes.flatten.count c = s.tube_capacity ∧
  s.tubes.any (fun t => t.getLast? == some c) = true

/-- The claim's score of a color, computed from its occurrences:
`maxDepth * 10`, plus `5` per topmost occurrence when more than one
occurrence is topmost. -/
def scoreOf (s : TubeSolver) (c : Int) : Int :=
  (((positionsFor s.tubes c).map (fun p => p.depth)).foldr max 0 : Nat) * 10 +
    (if 1 < ((positionsFor s.tubes c).filter (fun p => p.is_top)).length then
      (((positionsFor s.tubes c).filter (fun p => p.is_top)).length : Int) * 5
    else 0)

theorem perm_any {α : Type} (l₁ l₂ : List α) (h : l₁.Perm l₂) (p : α → Bool) :
    l₁.any p = l₂.any p := by
  simp [List.any_eq, List.Perm.mem_iff h]

theorem perm_foldr_max (l₁ l₂ : List Nat) (h : l₁.Perm l₂) :
    l₁.foldr max 0 = l₂.foldr max 0 := by
  induction h with
  | nil => rfl
  | cons x _ ih => simp [List.foldr_cons, ih]
  | swap x y l => simp only [List.foldr_cons]; rw [Nat.max_left_comm]
  | trans _ _ ih₁ ih₂ => rw [ih₁, ih₂]

theorem filterMap_enum_count (t : List Int) (c : Int)
    (g : Nat × Int → ColorPos) :
    ∀ n : Nat,
      ((t.enumFrom n).filterMap
        (fun q => if q.2 == c then some (g q) else none)).length
      = t.count c := by
  induction t with
  | nil => intro n; simp
  | cons x xs ih =>
    intro n
    rw [List.enumFrom_cons, List.filterMap_cons]
    by_cases hx : (x == c) = true
    · rw [if_pos hx]
      rw [List.length_cons, ih (n + 1), List.count_cons, if_pos hx]
    · rw [if_neg hx]
      rw [ih (n + 1), List.count_cons, if_neg hx]
      omega

theorem positionsFor_length (tubes : List (List Int)) (c : Int) :
    (positionsFor tubes c).length = tubes.flatten.count c := by
  suffices h : ∀ (ts : List (List Int)) (n : Nat),
      ((ts.enumFrom n).flatMap (fun p =>
        p.2.enum.filterMap (fun q =>
          if q.2 == c then
            some (⟨p.1, q.1, p.2.length - q.1 - 1,
              q.1 == p.2.length - 1⟩ : ColorPos)
          else none))).length = ts.flatten.count c by
    exact h tubes 0
  intro ts
  induction ts with
  | nil => intro n; simp
  | cons t rest ih =>
    intro n
    rw [List.enumFrom_cons, List.flatMap_cons, List.length_append,
      ih (n + 1), List.flatten_cons, List.count_append]
    congr 1
    exact filterMap_enum_count t c _ 0

theorem positionsFor_any_top (tubes : List (List Int)) (c : Int) :
    (positionsFor tubes c).any (fun p => p.is_top)
      = tubes.any (fun t => t.getLast? == some c) := by
  rw [Bool.eq_iff_iff, List.any_eq_true, List.any_eq_true]
  constructor
  · rintro ⟨p, hp, htop⟩
    unfold positionsFor at hp
    rcases List.mem_flatMap.mp hp with ⟨pr, hpr, hinner⟩
    rcases List.mem_filterMap.mp hinner with ⟨q, hq, hfq⟩
    by_cases hqc : (q.2 == c) = true
    · rw [if_pos hqc] at hfq
      injection hfq with hfq2
      subst hfq2
      simp only at htop
      obtain ⟨ti, t⟩ := pr
      obtain ⟨qi, x⟩ := q
      have hx : x = c := beq_iff_eq.mp hqc
      have hqi : qi = t.length - 1 := by simpa using htop
      have hget : t[qi]? = some x := by
        have h2 : t.enum = t.enumFrom 0 := rfl
        rw [h2] at hq
        have := List.mk_mem_enumFrom_iff_le_and_getElem?_sub.mp hq
        simpa using this.2
      refine ⟨t, ?_, ?_⟩
      · have h3 := List.mk_mem_enum_iff_getElem?.mp hpr
        exact List.getElem?_mem h3
      · rw [List.getLast?_eq_getElem?]
        rw [← hqi, hget, hx]
        exact beq_self_eq_true _
    · rw [if_neg hqc] at hfq
      exact Option.noConfusion hfq
  · rintro ⟨t, ht, hlast⟩
    have hlast2 : t.getLast? = some c := beq_iff_eq.mp hlast
    have hne : t ≠ [] := by
      intro he
      rw [he] at hlast2
      exact Option.noConfusion hlast2
    have hlen : 0 < t.length := List.length_pos.mpr hne
    have hget : t[t.length - 1]? = some c := by
      rw [← List.getLast?_eq_getElem?]
      exact hlast2
    rcases List.mem_iff_getElem?.mp ht with ⟨ti, hti⟩
    refine ⟨⟨ti, t.length - 1, t.length - (t.length - 1) - 1,
        t.length - 1 == t.length - 1⟩, ?_, ?_⟩
    · unfold positionsFor
      rw [List.mem_flatMap]
      refine ⟨(ti, t), List.mk_mem_enum_iff_getElem?.mpr hti, ?_⟩
      rw [List.mem_filterMap]
      refine ⟨(t.length - 1, c), ?_, ?_⟩
      · have h2 : t.enum = t.enumFrom 0 := rfl
        rw [h2]
        apply List.mk_mem_enumFrom_iff_le_and_getElem?_sub.mpr
        constructor
        · omega
        · simpa using hget
      · rw [if_pos (beq_self_eq_true c)]
    · simp

theorem analyze_colors_mem (s : TubeSolver) (c : Int) (d : ColorData) :
    (c, d) ∈ analyze_colors s ↔
      (c ∈ allColors s.tubes ∧
        (positionsFor s.tubes c).length = s.tube_capacity ∧
        d = ⟨(positionsFor s.tubes c).length,
          sortByDepthDesc (positionsFor s.tubes c),
          (sortByDepthDesc (positionsFor s.tubes c)).any (fun p => p.is_top),
          ((sortByDepthDesc (positionsFor s.tubes c)).map
            (fun p => p.depth)).foldr max 0⟩) := by
  unfold analyze_colors
  rw [List.mem_filterMap]
  constructor
  · rintro ⟨a, ha, hf⟩
    dsimp only at hf
    by_cases hc : ((positionsFor s.tubes a).length == s.tube_capacity) = true
    · rw [if_pos hc] at hf
      injection hf with h2
      injection h2 with h3 h4
      subst h3
      subst h4
      exact ⟨ha, beq_iff_eq.mp hc, rfl⟩
    · rw [if_neg hc] at hf
      exact Option.noConfusion hf
  · rintro ⟨hmem, hlen, rfl⟩
    refine ⟨c, hmem, ?_⟩
    dsimp only
    rw [if_pos (beq_iff_eq.mpr hlen)]

theorem is_collectible_of_mem {s : TubeSolver} {c : Int} {d : ColorData}
    (hmem : (c, d) ∈ analyze_colors s) (hcol : d.is_collectible = true) :
    IsCollectible s c := by
  rcases (analyze_colors_mem s c d).mp hmem with ⟨_, hlen, rfl⟩
  constructor
  · rw [← positionsFor_length]
    exact hlen
  · rw [← positionsFor_any_top]
    rw [← perm_any _ _ (List.perm_insertionSort (fun a b => b.depth ≤ a.depth)
      (positionsFor s.tubes c)) (fun p => p.is_top)]
    exact hcol

theorem collectible_entry_flag (s : TubeSolver) (c : Int)
    (hc : IsCollectible s c) :
    (sortByDepthDesc (positionsFor s.tubes c)).any (fun p => p.is_top)
      = true := by
  rw [show sortByDepthDesc (positionsFor s.tubes c)
      = List.insertionSort (fun a b => b.depth ≤ a.depth)
        (positionsFor s.tubes c) from rfl]
  rw [perm_any _ _ (List.perm_insertionSort (fun a b => b.depth ≤ a.depth)
    (positionsFor s.tubes c)) (fun p => p.is_top)]
  rw [positionsFor_any_top]
  exact hc.2

theorem collectible_mem_analyze (s : TubeSolver) (c : Int)
    (hc : IsCollectible s c) :
    (c, (⟨(positionsFor s.tubes c).length,
      sortByDepthDesc (positionsFor s.tubes c),
      (sortByDepthDesc (positionsFor s.tubes c)).any (fun p => p.is_top),
      ((sortByDepthDesc (positionsFor s.tubes c)).map
        (fun p => p.depth)).foldr max 0⟩ : ColorData)) ∈ analyze_colors s := by
  apply (analyze_colors_mem s c _).mpr
  refine ⟨?_, ?_, rfl⟩
  · unfold allColors
    rw [List.mem_dedup]
    rcases List.any_eq_true.mp hc.2 with ⟨t, ht, hbt⟩
    have hlast : t.getLast? = some c := beq_iff_eq.mp hbt
    have hcin : c ∈ t := by
      rw [List.getLast?_eq_getElem?] at hlast
      exact List.getElem?_mem hlast
    exact List.mem_flatten.mpr ⟨t, ht, hcin⟩
  · rw [positionsFor_length]
    exact hc.1

theorem colorScore_entry (s : TubeSolver) (c : Int) :
    colorScore (⟨(positionsFor s.tubes c).length,
      sortByDepthDesc (positionsFor s.tubes c),
      (sortByDepthDesc (positionsFor s.tubes c)).any (fun p => p.is_top),
      ((sortByDepthDesc (positionsFor s.tubes c)).map
        (fun p => p.depth)).foldr max 0⟩ : ColorData) = scoreOf s c := by
  unfold colorScore scoreOf
  dsimp only
  have hperm := List.perm_insertionSort
    (fun (a b : ColorPos) => b.depth ≤ a.depth) (positionsFor s.tubes c)
  have h1 : ((sortByDepthDesc (positionsFor s.tubes c)).filter
        (fun p => p.is_top)).length
      = ((positionsFor s.tubes c).filter (fun p => p.is_top)).length :=
    (hperm.filter _).length_eq
  have h2 : ((sortByDepthDesc (positionsFor s.tubes c)).map
        (fun p => p.depth)).foldr max 0
      = ((positionsFor s.tubes c).map (fun p => p.depth)).foldr max 0 :=
    perm_foldr_max _ _ (hperm.map _)
  rw [h1, h2]
  split_ifs <;> push_cast <;> ring

theorem colorScore_nonneg (d : ColorData) : 0 ≤ colorScore d := by
  unfold colorScore
  dsimp only
  refine add_nonneg ?_ ?_
  · exact mul_nonneg (Int.natCast_nonneg _) (by norm_num)
  · exact Int.natCast_nonneg _

theorem ftcLoop_eq_none_iff (L : List (Int × ColorData)) :
    ∀ (best : Option Int) (bs : Int),
      (ftcLoop L best bs = none ↔
        best = none ∧
        ∀ cd ∈ L, cd.2.is_collectible = true → colorScore cd.2 ≤ bs) := by
  induction L with
  | nil =>
    intro best bs
    simp [ftcLoop]
  | cons hd rest ih =>
    intro best bs
    obtain ⟨a, d⟩ := hd
    rw [show ftcLoop ((a, d) :: rest) best bs
        = if d.is_collectible then
            (if bs < colorScore d then ftcLoop rest (some a) (colorScore d)
             else ftcLoop rest best bs)
          else ftcLoop rest best bs from rfl]
    by_cases hcol : d.is_collectible = true
    · rw [if_pos hcol]
      by_cases hlt : bs < colorScore d
      · rw [if_pos hlt, ih]
        constructor
        · rintro ⟨hb, _⟩
          exact Option.noConfusion hb
        · rintro ⟨hb, hbound⟩
          exfalso
          have hle := hbound (a, d) (List.mem_cons_self _ _) hcol
          exact absurd hlt (not_lt.mpr hle)
        -- impossible in both directions: updated best is a some
      · rw [if_neg hlt, ih]
        constructor
        · rintro ⟨hb, hbound⟩
          refine ⟨hb, ?_⟩
          intro cd hcd hc
          rcases List.mem_cons.mp hcd with rfl | h2
          · exact not_lt.mp hlt
          · exact hbound cd h2 hc
        · rintro ⟨hb, hbound⟩
          exact ⟨hb, fun cd hcd hc =>
            hbound cd (List.mem_cons_of_mem _ hcd) hc⟩
    · rw [if_neg hcol, ih]
      constructor
      · rintro ⟨hb, hbound⟩
        refine ⟨hb, ?_⟩
        intro cd hcd hc
        rcases List.mem_cons.mp hcd with rfl | h2
        · exact absurd hc hcol
        · exact hbound cd h2 hc
      · rintro ⟨hb, hbound⟩
        exact ⟨hb, fun cd hcd hc =>
          hbound cd (List.mem_cons_of_mem _ hcd) hc⟩

theorem ftcLoop_some_spec (L : List (Int × ColorData)) :
    ∀ (best : Option Int) (bs : Int) (c : Int),
      ftcLoop L best bs = some c →
      (best = some c ∧
        ∀ cd ∈ L, cd.2.is_collectible = true → colorScore cd.2 ≤ bs) ∨
      (∃ d, (c, d) ∈ L ∧ d.is_collectible = true ∧ bs < colorScore d ∧
        ∀ cd ∈ L, cd.2.is_collectible = true →
          colorScore cd.2 ≤ colorScore d) := by
  induction L with
  | nil =>
    intro best bs c h
    left
    exact ⟨h, by simp⟩
  | cons hd rest ih =>
    intro best bs c h
    obtain ⟨a, d⟩ := hd
    rw [show ftcLoop ((a, d) :: rest) best bs
        = if d.is_collectible then
            (if bs < colorScore d then ftcLoop rest (some a) (colorScore d)
             else ftcLoop rest best bs)
          else ftcLoop rest best bs from rfl] at h
    by_cases hcol : d.is_collectible = true
    · rw [if_pos hcol] at h
      by_cases hlt : bs < colorScore d
      · rw [if_pos hlt] at h
        rcases ih _ _ _ h with ⟨hb, hbound⟩ | ⟨d', hmem, hc', hlt', hbound⟩
        · injection hb with hb2
          subst hb2
          right
          refine ⟨d, List.mem_cons_self _ _, hcol, hlt, ?_⟩
          intro cd hcd hc
          rcases List.mem_cons.mp hcd with rfl | h2
          · exact le_refl _
          · exact hbound cd h2 hc
        · right
          refine ⟨d', List.mem_cons_of_mem _ hmem, hc', lt_trans hlt hlt', ?_⟩
          intro cd hcd hc
          rcases List.mem_cons.mp hcd with rfl | h2
          · exact le_of_lt hlt'
          · exact hbound cd h2 hc
      · rw [if_neg hlt] at h
        rcases ih _ _ _ h with ⟨hb, hbound⟩ | ⟨d', hmem, hc', hlt', hbound⟩
        · left
          refine ⟨hb, ?_⟩
          intro cd hcd hc
          rcases List.mem_cons.mp hcd with rfl | h2
          · exact not_lt.mp hlt
          · exact hbound cd h2 hc
        · right
          refine ⟨d', List.mem_cons_of_mem _ hmem, hc', hlt', ?_⟩
          intro cd hcd hc
          rcases List.mem_cons.mp hcd with rfl | h2
          · exact le_trans (not_lt.mp hlt) (le_of_lt hlt')
          · exact hbound cd h2 hc
    · rw [if_neg hcol] at h
      rcases ih _ _ _ h with ⟨hb, hbound⟩ | ⟨d', hmem, hc', hlt', hbound⟩
      · left
        refine ⟨hb, ?_⟩
        intro cd hcd hc
        rcases List.mem_cons.mp hcd with rfl | h2
        · exact absurd hc hcol
        · exact hbound cd h2 hc
      · right
        refine ⟨d', List.mem_cons_of_mem _ hmem, hc', hlt', ?_⟩
        intro cd hcd hc
        rcases List.mem_cons.mp hcd with rfl | h2
        · exact absurd hc hcol
        · exact hbound cd h2 hc

/-- C7. For states with positive color identifiers, `find_target_color`
considers exactly the collectible colors — those whose total unit count
equals the capacity and with at least one topmost occurrence: it returns
none exactly when no collectible color exists, and any color it returns
is collectible and achieves the highest score, where the score is
`maxDepth * 10` plus `5` per topmost occurrence when more than one
occurrence is topmost (`scoreOf`). -/
theorem find_target_color_spec (s : TubeSolver)
    (_hpos : ∀ t ∈ s.tubes, ∀ x ∈ t, 0 < x) :
    (s.find_target_color = none ↔ ∀ c : Int, ¬IsCollectible s c) ∧
    (∀ c : Int, s.find_target_color = some c →
      IsCollectible s c ∧
      ∀ c' : Int, IsCollectible s c' → scoreOf s c' ≤ scoreOf s c) := by
  constructor
  · rw [show s.find_target_color
        = ftcLoop (analyze_colors s) none (-1) from rfl]
    rw [ftcLoop_eq_none_iff]
    constructor
    · rintro ⟨_, hbound⟩ c hc
      have hmem := collectible_mem_analyze s c hc
      have hflag := collectible_entry_flag s c hc
      have hle := hbound _ hmem hflag
      dsimp only at hle
      have h0 := colorScore_nonneg
        (⟨(positionsFor s.tubes c).length,
          sortByDepthDesc (positionsFor s.tubes c),
          (sortByDepthDesc (positionsFor s.tubes c)).any (fun p => p.is_top),
          ((sortByDepthDesc (positionsFor s.tubes c)).map
            (fun p => p.depth)).foldr max 0⟩ : ColorData)
      omega
    · intro hnone
      refine ⟨rfl, ?_⟩
      intro cd hcd hflag
      exfalso
      obtain ⟨c, d⟩ := cd
      exact hnone c (is_collectible_of_mem hcd hflag)
  · intro c hsome
    rw [show s.find_target_color
        = ftcLoop (analyze_colors s) none (-1) from rfl] at hsome
    rcases ftcLoop_some_spec _ _ _ _ hsome with
      ⟨hb, _⟩ | ⟨d, hmem, hflag, _, hbound⟩
    · exact Option.noConfusion hb
    · have hIc : IsCollectible s c := is_collectible_of_mem hmem hflag
      refine ⟨hIc, ?_⟩
      intro c' hc'
      have hmem' := collectible_mem_analyze s c' hc'
      have hflag' := collectible_entry_flag s c' hc'
      have hle := hbound _ hmem' hflag'
      dsimp only at hle
      rcases (analyze_colors_mem s c d).mp hmem with ⟨_, _, rfl⟩
      rw [colorScore_entry s c'] at hle
      rw [colorScore_entry s c] at hle
      exact hle

/-- Witness for C7 at the all-positive state `[[1,1,1,1],[2]]`. -/
theorem find_target_color_spec_witness :
    (∀ t ∈ (mkSolver [[1, 1, 1, 1], [2]]).tubes, ∀ x ∈ t, 0 < x) ∧
    (((mkSolver [[1, 1, 1, 1], [2]]).find_target_color = none ↔
        ∀ c : Int, ¬IsCollectible (mkSolver [[1, 1, 1, 1], [2]]) c) ∧
      (∀ c : Int, (mkSolver [[1, 1, 1, 1], [2]]).find_target_color = some c →
        IsCollectible (mkSolver [[1, 1, 1, 1], [2]]) c ∧
        ∀ c' : Int, IsCollectible (mkSolver [[1, 1, 1, 1], [2]]) c' →
          scoreOf (mkSolver [[1, 1, 1, 1], [2]]) c'
            ≤ scoreOf (mkSolver [[1, 1, 1, 1], [2]]) c)) :=
  ⟨by decide, find_target_color_spec (mkSolver [[1, 1, 1, 1], [2]]) (by decide)⟩

end TubeSpec
